import Mathlib
set_option maxRecDepth 8000

/-!
Shallow embedding of the Bill Statement Parser & Rate Reconciliation Engine
(source: src/Combov1.py) together with proofs settling the frozen claims
about it.  Text is modelled as `List Char` (a page's raw characters) or
`String`; currency amounts are modelled as `ℚ` (the Python code uses floats
with an absolute tolerance of 0.01, so all comparisons are exact here);
Python dicts are modelled as association lists in insertion order, or as
functions to `Option` values where only lookup matters.
-/

namespace Hospital

/-! ### Basic string / char-list utilities -/

/-- Boolean prefix test on char lists: `isPrefixB n h` is true iff `n` is an
initial segment of `h` (model of Python `str.startswith` and the first step
of substring search). -/
def isPrefixB : List Char → List Char → Bool
  | [], _ => true
  | _ :: _, [] => false
  | a :: as, b :: bs => a == b && isPrefixB as bs

/-- Boolean substring test: `containsSub hay needle` is true iff `needle`
occurs contiguously inside `hay` (model of Python `needle in hay`). -/
def containsSub (hay needle : List Char) : Bool :=
  match hay with
  | [] => isPrefixB needle []
  | _ :: t => isPrefixB needle hay || containsSub t needle

/-- Substring test on strings (model of Python `needle in hay`). -/
def strContains (hay needle : String) : Bool :=
  containsSub hay.toList needle.toList

/-- Model of Python `str.upper()` (ASCII case mapping suffices for the
keywords and service codes this program handles). -/
def upperStr (s : String) : String :=
  String.mk (s.toList.map Char.toUpper)

/-- Model of Python `str.strip()`: remove leading and trailing whitespace. -/
def stripChars (s : List Char) : List Char :=
  ((s.dropWhile Char.isWhitespace).reverse.dropWhile Char.isWhitespace).reverse

theorem isPrefixB_iff (n h : List Char) :
    isPrefixB n h = true ↔ ∃ t, h = n ++ t := by
  induction n generalizing h with
  | nil => simp [isPrefixB]
  | cons a as ih =>
    cases h with
    | nil => simp [isPrefixB]
    | cons b bs =>
      simp only [isPrefixB, Bool.and_eq_true, beq_iff_eq, ih]
      constructor
      · rintro ⟨rfl, t, rfl⟩; exact ⟨t, rfl⟩
      · rintro ⟨t, ht⟩
        injection ht with h1 h2
        exact ⟨h1.symm, t, h2⟩

theorem isPrefixB_append (n t : List Char) : isPrefixB n (n ++ t) = true :=
  (isPrefixB_iff n (n ++ t)).2 ⟨t, rfl⟩

theorem containsSub_iff (hay needle : List Char) :
    containsSub hay needle = true ↔ ∃ pre post, hay = pre ++ needle ++ post := by
  induction hay with
  | nil =>
    simp only [containsSub, isPrefixB_iff]
    constructor
    · rintro ⟨t, ht⟩
      exact ⟨[], t, by simpa using ht⟩
    · rintro ⟨pre, post, h⟩
      cases pre with
      | nil => exact ⟨post, by simpa using h⟩
      | cons a as => simp at h
  | cons c t ih =>
    simp only [containsSub, Bool.or_eq_true, isPrefixB_iff, ih]
    constructor
    · rintro (⟨s, hs⟩ | ⟨pre, post, hp⟩)
      · exact ⟨[], s, by simpa using hs⟩
      · exact ⟨c :: pre, post, by simp [hp]⟩
    · rintro ⟨pre, post, hp⟩
      cases pre with
      | nil => exact Or.inl ⟨post, by simpa using hp⟩
      | cons a as =>
        injection hp with h1 h2
        exact Or.inr ⟨as, post, h2⟩

/-- Substring containment is transitive through an intermediate string. -/
theorem containsSub_trans (hay mid needle : List Char)
    (h1 : containsSub hay mid = true) (h2 : containsSub mid needle = true) :
    containsSub hay needle = true := by
  rw [containsSub_iff] at h1 h2 ⊢
  obtain ⟨p1, s1, rfl⟩ := h1
  obtain ⟨p2, s2, rfl⟩ := h2
  exact ⟨p1 ++ p2, s2 ++ s1, by simp⟩

/-! ### Currency-pattern scanning (Python `re.findall(r'([\d,]+\.\d{2})', text)`)

The pattern is one-or-more of `[0-9,]` followed by a dot and exactly two
digits.  Since the character class of the one-or-more part excludes the dot,
regex backtracking can never shorten the greedy run to produce a match the
maximal run misses, so matching at one position is: take the maximal run of
`[0-9,]` characters, then require a dot and two digits. -/

/-- Characters matched by the `[\d,]` class of the currency pattern. -/
def isAmtChar (c : Char) : Bool := c.isDigit || c == ','

/-- Attempt the currency pattern anchored at the start of `s`; on success
returns the matched substring and the remainder of `s` after it. -/
def matchAmtAt (s : List Char) : Option (List Char × List Char) :=
  let run := s.takeWhile isAmtChar
  if run.isEmpty then none
  else
    match s.dropWhile isAmtChar with
    | '.' :: d1 :: d2 :: rest =>
      if d1.isDigit && d2.isDigit then some (run ++ ['.', d1, d2], rest) else none
    | _ => none

/-- Fuelled left-to-right non-overlapping scan for currency-pattern matches
(fuel bounds the number of scan steps; `s.length` steps always suffice). -/
def findAmtsF : Nat → List Char → List (List Char)
  | 0, _ => []
  | fuel + 1, s =>
    match s with
    | [] => []
    | c :: t =>
      match matchAmtAt (c :: t) with
      | some (m, rest) => m :: findAmtsF fuel rest
      | none => findAmtsF fuel t

/-- All currency-pattern matches of `s`, leftmost first, non-overlapping
(model of `re.findall(r'([\d,]+\.\d{2})', s)`). -/
def findAmts (s : List Char) : List (List Char) := findAmtsF s.length s

/-- Numeric value of a character digit. -/
def digitVal (c : Char) : Nat := c.toNat - 48

/-- Value of a digit string read in base 10. -/
def digitsToNat (ds : List Char) : Nat := ds.foldl (fun n c => 10 * n + digitVal c) 0

/-- Model of Python `float(s.replace(',', ''))` on a string of shape
`[\d,]*\.\d*`: strip commas, then integer part plus decimal fraction.
Exact rational arithmetic stands in for IEEE floats; every comparison the
program makes uses an absolute 0.01 tolerance, so nothing below depends on
float rounding. -/
def parseAmt (s : List Char) : ℚ :=
  let cleaned := s.filter (fun c => !(c == ','))
  let intPart := cleaned.takeWhile (fun c => !(c == '.'))
  let frac := (cleaned.dropWhile (fun c => !(c == '.'))).drop 1
  (digitsToNat intPart : ℚ) + (digitsToNat frac : ℚ) / (10 : ℚ) ^ frac.length

/-! ### Right-most split (Python `text.rsplit(sep, 1)[0]`) -/

/-- All indices of `text` at which `sep` occurs as a substring. -/
def occIndices (text sep : List Char) : List Nat :=
  (List.range (text.length + 1)).filter (fun i => isPrefixB sep (text.drop i))

/-- Model of Python `text.rsplit(sep, 1)[0]`: everything strictly before the
right-most occurrence of `sep`, or all of `text` when `sep` does not occur. -/
def rsplit1 (text sep : List Char) : List Char :=
  match (occIndices text sep).getLast? with
  | some i => text.take i
  | none => text

/-- Modelled from the spec: truncation of `text` at the FIRST occurrence of
`sep` — the behaviour the spec ascribes to the two-amount case (the source
instead uses the right-most occurrence via `rsplit`). -/
def truncAtFirstOcc (text sep : List Char) : List Char :=
  match (occIndices text sep).head? with
  | some i => text.take i
  | none => text

/-! ### Item amount extraction (src/Combov1.py lines 205-227)

Given the joined text of one assembled item, the source collects all
currency-pattern matches; zero matches drops the item, one match keeps the
text unchanged, two or more matches take the first match as the amount and
truncate the text by `rsplit` on the second match.  The `except ValueError`
guard in the source can never fire: every matched substring parses. -/
def emitFromText (complete_text : List Char) : Option (ℚ × List Char) :=
  match findAmts complete_text with
  | [] => none
  | m :: rest =>
    let amount := parseAmt m
    let billed_text :=
      match rest with
      | [] => complete_text
      | m2 :: _ => stripChars (rsplit1 complete_text m2)
    some (amount, billed_text)

/-! ### Rate validator (src/Combov1.py, class RateValidator) -/

/-- One rate-sheet row for one scope: display name and unit rate
(Python `{'service_name': ..., 'rate': ...}`). -/
structure RateEntry where
  service_name : String
  rate : ℚ
deriving DecidableEq

/-- One scope's lookup dict, modelled as an association list in insertion
order (Python dict; keys unique, first hit wins on lookup). -/
abbrev RateTable := List (String × RateEntry)

/-- The two-scope rate sheet `{'STANDARD': ..., 'CGHS': ...}`, modelled as an
association list so that `get(scheme, {})` keeps its behaviour on arbitrary
scheme strings. -/
abbrev RateSheet := List (String × RateTable)

/-- Model of Python `self.rate_sheet.get(rate_scheme, {})`. -/
def getTable (sheet : RateSheet) (scheme : String) : RateTable :=
  match sheet.find? (fun p => p.1 == scheme) with
  | some p => p.2
  | none => []

/-- Exact dict lookup `lookup[service_code]` / `service_code in lookup`. -/
def exactFind (lookup : RateTable) (code : String) : Option (String × RateEntry) :=
  lookup.find? (fun p => p.1 == code)

/-- Case-insensitive fallback: first key whose uppercasing equals the
uppercased code (Python `matching_keys[0]` over dict key order). -/
def ciFind (lookup : RateTable) (code : String) : Option (String × RateEntry) :=
  lookup.find? (fun p => upperStr p.1 == upperStr code)

/-- Resolution of a service code against one scope: exact match first, then
the case-insensitive fallback (the two-step lookup of `validate_rate`). -/
def resolveService (lookup : RateTable) (code : String) : Option (String × RateEntry) :=
  match exactFind lookup code with
  | some p => some p
  | none => ciFind lookup code

/-- Decimal-free rendering of a rational for remark strings; stands in for
Python float interpolation (digit formatting differs, content does not). -/
def fmtQ (q : ℚ) : String :=
  toString q.num ++ (if q.den = 1 then "" else "/" ++ toString q.den)

/-- Result dict of `RateValidator.validate_rate`, one field per key.
`expected_total` is absent (`none`) until the lookup succeeds, matching the
Python dict which only gains that key on the found path. -/
structure ValidationResult where
  service_code : String
  base_amount : ℚ
  quantity : ℤ
  billed_amount : ℚ
  rate_scheme : String
  validation_status : String
  matched_status : String
  approved_rate : Option ℚ
  service_name : Option String
  match_found : Bool
  remarks : String
  rate_difference : ℚ
  unit_price_mismatch : Bool
  expected_total : Option ℚ
deriving DecidableEq

/-- Shared tail of `validate_rate` once a rate-sheet entry has been found
(src/Combov1.py lines 866-901): compute the expected total, flag a unit
price mismatch, and classify compliance within the 0.01 tolerance. -/
def finishValidation (r : ValidationResult) (service_data : RateEntry) : ValidationResult :=
  let approved_rate := service_data.rate
  let expected_total := approved_rate * (r.quantity : ℚ)
  let r1 := { r with
    approved_rate := some approved_rate
    expected_total := some expected_total
    service_name := some service_data.service_name
    match_found := true
    rate_difference := r.billed_amount - expected_total }
  let r2 := if |r1.base_amount - approved_rate| > (0.01 : ℚ) then
      { r1 with unit_price_mismatch := true } else r1
  if |r2.billed_amount - expected_total| < (0.01 : ℚ) then
    { r2 with
      validation_status := "RATE_COMPLIANT"
      matched_status := "MATCHED"
      remarks := "Rate matches exactly for " ++ toString r2.quantity ++ " units" }
  else
    let r3 := { r2 with
      validation_status := "RATE_NON_COMPLIANT"
      matched_status := "NOT_MATCHED"
      remarks := if r2.billed_amount > expected_total then
          "Overcharge: ₹" ++ fmtQ (r2.billed_amount - expected_total) ++
            " for " ++ toString r2.quantity ++ " units"
        else
          "Undercharge: ₹" ++ fmtQ (expected_total - r2.billed_amount) ++
            " for " ++ toString r2.quantity ++ " units" }
    if r3.unit_price_mismatch then
      { r3 with remarks := (r3.remarks ++ " | Unit price mismatch: ₹" ++
          fmtQ r3.base_amount ++ " vs ₹" ++ fmtQ approved_rate) }
    else r3

/-- The result dict as it stands just before the rate lookup
(src/Combov1.py lines 817-842): all input fields echoed, defaults set, and
the billed-amount consistency note written into `remarks` when
`base_amount * quantity` disagrees with `billed_amount` beyond the 0.01
tolerance.  Every later path of `validate_rate` assigns `remarks` again,
exactly as the source does. -/
def preResult (service_code : String) (base_amount : ℚ) (quantity : ℤ)
    (billed_amount : ℚ) (rate_scheme : String) : ValidationResult :=
  let result0 : ValidationResult := {
    service_code := service_code
    base_amount := base_amount
    quantity := quantity
    billed_amount := billed_amount
    rate_scheme := rate_scheme
    validation_status := "PENDING"
    matched_status := "NOT_MATCHED"
    approved_rate := none
    service_name := none
    match_found := false
    remarks := ""
    rate_difference := 0
    unit_price_mismatch := false
    expected_total := none }
  let calculated_amount := base_amount * (quantity : ℚ)
  if |calculated_amount - billed_amount| > (0.01 : ℚ) then
    { result0 with remarks :=
        ("Billed amount mismatch: " ++ fmtQ base_amount ++ " * " ++
          toString quantity ++ " = " ++ fmtQ calculated_amount ++
          ", but billed " ++ fmtQ billed_amount) }
  else result0

/-- Model of `RateValidator.validate_rate` (src/Combov1.py lines 812-901). -/
def validate_rate (sheet : RateSheet) (service_code : String) (base_amount : ℚ)
    (quantity : ℤ) (billed_amount : ℚ) (rate_scheme : String) : ValidationResult :=
  if service_code = "" ∨ service_code = "NOT_FOUND" then
    { service_code := service_code
      base_amount := base_amount
      quantity := quantity
      billed_amount := billed_amount
      rate_scheme := rate_scheme
      validation_status := "SERVICE_CODE_NOT_FOUND"
      matched_status := "NOT_MATCHED"
      approved_rate := none
      service_name := none
      match_found := false
      remarks := "Service code not found in bill line item"
      rate_difference := 0
      unit_price_mismatch := false
      expected_total := none }
  else
    let result1 := preResult service_code base_amount quantity billed_amount rate_scheme
    let lookup := getTable sheet rate_scheme
    match exactFind lookup service_code with
    | some p => finishValidation result1 p.2
    | none =>
      match ciFind lookup service_code with
      | some p => finishValidation { result1 with service_code := p.1 } p.2
      | none =>
        { result1 with
          validation_status := "SERVICE_NOT_IN_RATE_SHEET"
          matched_status := "NOT_MATCHED"
          remarks := "Service code " ++ service_code ++ " not found in " ++
            rate_scheme ++ " rate sheet" }

/-- The service code the returned result carries: the caller's code, except
when only the case-insensitive fallback matched, in which case it is the
matched table key (src/Combov1.py line 857). -/
def echoedCode (sheet : RateSheet) (service_code rate_scheme : String) : String :=
  if service_code = "" ∨ service_code = "NOT_FOUND" then service_code
  else
    let lookup := getTable sheet rate_scheme
    match exactFind lookup service_code with
    | some _ => service_code
    | none =>
      match ciFind lookup service_code with
      | some p => p.1
      | none => service_code

/-! ### Scheme selection (RateValidator.determine_rate_scheme) -/

/-- Keyword list of `determine_rate_scheme`, in source order. -/
def cghs_keywords : List String :=
  ["SOUTHERN RAILWAY", "RAILWAY", "ECHS",
   "CGHS", "CENTRAL GOVERNMENT", "DEFENCE", "GOVERNMENT",
   "RAILWAYS", "EX-SERVICEMEN", "EXSERVICEMEN"]

/-- The source's keyword loop with early return on the first hit. -/
def schemeLoop : List String → String → String
  | [], _ => "STANDARD"
  | k :: ks, up => if strContains up k then "CGHS" else schemeLoop ks up

/-- Model of `RateValidator.determine_rate_scheme` (src/Combov1.py lines
789-810): empty company name short-circuits to STANDARD, otherwise the
uppercased name is scanned for the CGHS keywords. -/
def determine_rate_scheme (company_name : String) : String :=
  if company_name = "" then "STANDARD"
  else schemeLoop cghs_keywords (upperStr company_name)

/-- Modelled from the spec: the keyword set the spec states for scheme
selection.  The source list additionally contains SOUTHERN RAILWAY, which is
redundant for the containment test because it contains RAILWAY. -/
def claim_scheme_keywords : List String :=
  ["RAILWAY", "ECHS", "CGHS", "CENTRAL GOVERNMENT", "DEFENCE", "GOVERNMENT",
   "RAILWAYS", "EX-SERVICEMEN", "EXSERVICEMEN"]

/-! ### Summary/Concession extractor (src/Combov1.py, extract_concession_details)

The regex engine is abstracted at the page boundary: a page provides, for
each labeled pattern key, the value of the first match of that pattern in the
page's text (`re.search` semantics), or `none` when the pattern does not
match on that page.  The `float(...)` conversion cannot fail on a string the
capture group matched, so the `except ValueError: pass` in the source is
dead and the page-level match is already a value.  The concession dict is
modelled as a function from pattern key to optional value. -/

/-- One advance-payment record `(date, reference, amount)`. -/
structure AdvanceDetail where
  date : String
  reference : String
  amount : ℚ
deriving DecidableEq

/-- One document page, abstracted to its pattern-match results. -/
structure BillPage where
  search : String → Option ℚ
  advances : List AdvanceDetail

/-- Keys of the `concession_patterns` dict, in source order. -/
def concession_keys : List String :=
  ["total_bill_amount", "less_concession", "net_amount", "advance_adjusted",
   "account_to_insurance", "as_per_mou_concession", "as_per_package_concession"]

/-- Dict write `concession_data[key] = v`. -/
def setKey (d : String → Option ℚ) (k : String) (v : ℚ) : String → Option ℚ :=
  fun x => if x = k then some v else d x

/-- The inner per-page loop over the pattern table: each key whose pattern
matches on this page overwrites the accumulated dict entry. -/
def applyPage (d : String → Option ℚ) (page : BillPage) : String → Option ℚ :=
  concession_keys.foldl
    (fun acc k =>
      match page.search k with
      | some v => setKey acc k v
      | none => acc)
    d

/-- Model of `extract_concession_details` (src/Combov1.py lines 261-307):
fold over pages, re-running every pattern on every page, and collect all
advance-payment matches in document order. -/
def extract_concession_details (pages : List BillPage) :
    (String → Option ℚ) × List AdvanceDetail :=
  pages.foldl
    (fun acc page => (applyPage acc.1 page, acc.2 ++ page.advances))
    ((fun _ => none), [])

/-- Value of the page-wise last match for a key: the page-level results in
page order, keeping the last one. -/
def lastPageMatch (pages : List BillPage) (k : String) : Option ℚ :=
  (pages.filterMap (fun p => p.search k)).getLast?

/-! ### Money leakage aggregation (src/Combov1.py, calculate_money_leakage) -/

/-- One row of the audit table, restricted to the columns the aggregation
reads. -/
structure AuditRow where
  billed_amount : ℚ
  audit_outcome : String
  category : String
deriving DecidableEq

/-- Pandas `audit_df[audit_df['audit_outcome'] == outcome]['billed_amount'].sum()`. -/
def outcomeSum (rows : List AuditRow) (outcome : String) : ℚ :=
  ((rows.filter (fun r => r.audit_outcome == outcome)).map
    (fun r => r.billed_amount)).sum

/-- The aggregate fields of the leakage analysis dict that the claims
concern. -/
structure LeakageAnalysis where
  total_billed_amount : ℚ
  total_leakage_amount : ℚ
  leakage_by_type : String → ℚ

/-- Model of `calculate_money_leakage` (src/Combov1.py lines 1107-1148),
restricted to the aggregate totals: the loop walks the three outcome labels,
records each bucket, and adds every bucket except POTENTIAL_MISSING_CHARGE
into the running leakage total. -/
def calculate_money_leakage (rows : List AuditRow) : LeakageAnalysis :=
  let outcomes := ["UNSUPPORTED_BILLING", "AMOUNT_MISMATCH", "POTENTIAL_MISSING_CHARGE"]
  let total_leakage := outcomes.foldl
    (fun acc o => if o ≠ "POTENTIAL_MISSING_CHARGE" then acc + outcomeSum rows o else acc)
    0
  { total_billed_amount := (rows.map (fun r => r.billed_amount)).sum
    total_leakage_amount := total_leakage
    leakage_by_type := fun o => outcomeSum rows o }

/-! ### Helper lemmas about the rate validator -/

@[simp] theorem preResult_service_code (c : String) (b : ℚ) (q : ℤ) (bi : ℚ) (s : String) :
    (preResult c b q bi s).service_code = c := by
  unfold preResult; dsimp only; split <;> rfl

@[simp] theorem preResult_base_amount (c : String) (b : ℚ) (q : ℤ) (bi : ℚ) (s : String) :
    (preResult c b q bi s).base_amount = b := by
  unfold preResult; dsimp only; split <;> rfl

@[simp] theorem preResult_quantity (c : String) (b : ℚ) (q : ℤ) (bi : ℚ) (s : String) :
    (preResult c b q bi s).quantity = q := by
  unfold preResult; dsimp only; split <;> rfl

@[simp] theorem preResult_billed_amount (c : String) (b : ℚ) (q : ℤ) (bi : ℚ) (s : String) :
    (preResult c b q bi s).billed_amount = bi := by
  unfold preResult; dsimp only; split <;> rfl

@[simp] theorem preResult_rate_scheme (c : String) (b : ℚ) (q : ℤ) (bi : ℚ) (s : String) :
    (preResult c b q bi s).rate_scheme = s := by
  unfold preResult; dsimp only; split <;> rfl

theorem finishValidation_matched_iff (r : ValidationResult) (e : RateEntry) :
    ((finishValidation r e).matched_status = "MATCHED" ↔
      (finishValidation r e).validation_status = "RATE_COMPLIANT") := by
  unfold finishValidation
  dsimp only
  split <;> split <;> (try split) <;> simp

theorem finishValidation_expected_total (r : ValidationResult) (e : RateEntry) :
    (finishValidation r e).expected_total = some (e.rate * (r.quantity : ℚ)) := by
  unfold finishValidation; dsimp only; split <;> split <;> (try split) <;> simp

theorem finishValidation_approved_rate (r : ValidationResult) (e : RateEntry) :
    (finishValidation r e).approved_rate = some e.rate := by
  unfold finishValidation; dsimp only; split <;> split <;> (try split) <;> simp

theorem finishValidation_rate_difference (r : ValidationResult) (e : RateEntry) :
    (finishValidation r e).rate_difference = r.billed_amount - e.rate * (r.quantity : ℚ) := by
  unfold finishValidation; dsimp only; split <;> split <;> (try split) <;> simp

theorem finishValidation_frame (r : ValidationResult) (e : RateEntry) :
    (finishValidation r e).service_code = r.service_code ∧
    (finishValidation r e).base_amount = r.base_amount ∧
    (finishValidation r e).quantity = r.quantity ∧
    (finishValidation r e).billed_amount = r.billed_amount ∧
    (finishValidation r e).rate_scheme = r.rate_scheme := by
  unfold finishValidation; dsimp only; split <;> split <;> (try split) <;> simp

theorem finishValidation_compliant_iff (r : ValidationResult) (e : RateEntry) :
    ((finishValidation r e).validation_status = "RATE_COMPLIANT" ↔
      |r.billed_amount - e.rate * (r.quantity : ℚ)| < 0.01) := by
  unfold finishValidation; dsimp only; split <;> split <;> (try split) <;> simp_all

theorem finishValidation_noncompliant (r : ValidationResult) (e : RateEntry)
    (h : ¬ |r.billed_amount - e.rate * (r.quantity : ℚ)| < 0.01) :
    (finishValidation r e).validation_status = "RATE_NON_COMPLIANT" := by
  unfold finishValidation; dsimp only; split <;> split <;> (try split) <;> simp_all

theorem finishValidation_matched_noncompliant (r : ValidationResult) (e : RateEntry)
    (h : ¬ |r.billed_amount - e.rate * (r.quantity : ℚ)| < 0.01) :
    (finishValidation r e).matched_status = "NOT_MATCHED" := by
  unfold finishValidation; dsimp only; split <;> split <;> (try split) <;> simp_all

theorem preResult_approved_rate (c : String) (b : ℚ) (q : ℤ) (bi : ℚ) (s : String) :
    (preResult c b q bi s).approved_rate = none := by
  unfold preResult; dsimp only; split <;> rfl

/-! ### Helper lemmas about scheme selection -/

theorem schemeLoop_eq_cghs_iff (ks : List String) (up : String) :
    (schemeLoop ks up = "CGHS" ↔ ∃ k ∈ ks, strContains up k = true) := by
  induction ks with
  | nil => simp [schemeLoop]
  | cons k ks ih =>
    unfold schemeLoop
    by_cases h : strContains up k = true
    · simp [h]
    · simp only [h]
      rw [if_neg (by simp [h])]
      rw [ih]
      constructor
      · rintro ⟨k2, hk2, hc⟩
        exact ⟨k2, List.mem_cons_of_mem _ hk2, hc⟩
      · rintro ⟨k2, hk2, hc⟩
        rcases List.mem_cons.mp hk2 with rfl | hk2
        · exact absurd hc h
        · exact ⟨k2, hk2, hc⟩

theorem schemeLoop_dichotomy (ks : List String) (up : String) :
    schemeLoop ks up = "CGHS" ∨ schemeLoop ks up = "STANDARD" := by
  induction ks with
  | nil => simp [schemeLoop]
  | cons k ks ih =>
    unfold schemeLoop
    split
    · exact Or.inl rfl
    · exact ih

/-! ### Helper lemmas about the leakage aggregation -/

theorem outcomeSum_pair (rows : List AuditRow) :
    outcomeSum rows "UNSUPPORTED_BILLING" + outcomeSum rows "AMOUNT_MISMATCH" =
      ((rows.filter (fun r => r.audit_outcome == "UNSUPPORTED_BILLING" ||
          r.audit_outcome == "AMOUNT_MISMATCH")).map (fun r => r.billed_amount)).sum := by
  induction rows with
  | nil => simp [outcomeSum]
  | cons r t ih =>
    by_cases h1 : r.audit_outcome = "UNSUPPORTED_BILLING"
    · by_cases h2 : r.audit_outcome = "AMOUNT_MISMATCH"
      · exact absurd (h1 ▸ h2) (by decide)
      · unfold outcomeSum at *
        simp only [List.filter_cons, beq_iff_eq, h1, h2]
        simp [← ih, outcomeSum]
        ring
    · by_cases h2 : r.audit_outcome = "AMOUNT_MISMATCH"
      · unfold outcomeSum at *
        simp only [List.filter_cons, beq_iff_eq, h1, h2]
        simp [← ih, outcomeSum]
        ring
      · unfold outcomeSum at *
        simp only [List.filter_cons, beq_iff_eq, h1, h2]
        simp [← ih, outcomeSum, h1, h2]

/-! ### Helper lemmas about the concession extractor -/

theorem foldKeys_not_mem (page : BillPage) (ks : List String) (d : String → Option ℚ)
    (k : String) (h : k ∉ ks) :
    (ks.foldl (fun acc k2 =>
      match page.search k2 with
      | some v => setKey acc k2 v
      | none => acc) d) k = d k := by
  induction ks generalizing d with
  | nil => rfl
  | cons a t ih =>
    simp only [List.foldl]
    rw [ih _ (fun hm => h (List.mem_cons_of_mem _ hm))]
    cases ha : page.search a with
    | none => rfl
    | some v =>
      dsimp only
      unfold setKey
      rw [if_neg (fun he => h (by rw [he]; exact List.mem_cons_self a t))]

theorem foldKeys_mem (page : BillPage) (ks : List String) (d : String → Option ℚ)
    (k : String) (h : k ∈ ks) :
    (ks.foldl (fun acc k2 =>
      match page.search k2 with
      | some v => setKey acc k2 v
      | none => acc) d) k =
      (match page.search k with
      | some v => some v
      | none => d k) := by
  induction ks generalizing d with
  | nil => cases h
  | cons a t ih =>
    simp only [List.foldl]
    by_cases hk : k ∈ t
    · rw [ih _ hk]
      cases hs : page.search k with
      | some v => rfl
      | none =>
        dsimp only
        cases ha : page.search a with
        | none => rfl
        | some w =>
          dsimp only
          unfold setKey
          by_cases hak : k = a
          · subst hak; rw [hs] at ha; cases ha
          · rw [if_neg hak]
    · have hka : k = a := by
        rcases List.mem_cons.mp h with h1 | h2
        · exact h1
        · exact absurd h2 hk
      subst hka
      rw [foldKeys_not_mem page t _ k hk]
      cases hs : page.search k with
      | none => rfl
      | some v =>
        dsimp only
        unfold setKey
        rw [if_pos rfl]

theorem getLast?_cons_eq (v : ℚ) (l : List ℚ) :
    (v :: l).getLast? =
      (match l.getLast? with
      | some w => some w
      | none => some v) := by
  cases hl : l.getLast? with
  | none =>
    have he : l = [] := List.getLast?_eq_none_iff.mp hl
    subst he; rfl
  | some w =>
    obtain ⟨ys, rfl⟩ := List.getLast?_eq_some_iff.mp hl
    dsimp only
    rw [show v :: (ys ++ [w]) = (v :: ys) ++ [w] from rfl, List.getLast?_concat]

theorem foldPages_eval (pages : List BillPage) (d : String → Option ℚ)
    (adv : List AdvanceDetail) (k : String) (h : k ∈ concession_keys) :
    (pages.foldl (fun acc page => (applyPage acc.1 page, acc.2 ++ page.advances)) (d, adv)).1 k =
      (match (pages.filterMap (fun p => p.search k)).getLast? with
      | some v => some v
      | none => d k) := by
  induction pages generalizing d adv with
  | nil => rfl
  | cons p t ih =>
    simp only [List.foldl, List.filterMap_cons]
    rw [ih]
    cases hs : p.search k with
    | none =>
      unfold applyPage
      rw [foldKeys_mem p _ _ _ h, hs]
    | some v =>
      rw [getLast?_cons_eq]
      cases hl : (t.filterMap (fun p => p.search k)).getLast? with
      | some w => rfl
      | none =>
        dsimp only
        unfold applyPage
        rw [foldKeys_mem p _ _ _ h, hs]

/-! ### Helper lemmas about the currency scanner and rsplit -/

theorem matchAmtAt_eq (s m rest : List Char) (h : matchAmtAt s = some (m, rest)) :
    s = m ++ rest ∧ m ≠ [] := by
  unfold matchAmtAt at h
  dsimp only at h
  split at h
  · cases h
  · rename_i hrun
    split at h
    · rename_i d1 d2 rest2 hdrop
      split at h
      · injection h with h
        injection h with h1 h2
        subst h1; subst h2
        constructor
        · have h2 : s = List.takeWhile isAmtChar s ++ ('.' :: d1 :: d2 :: rest2) := by
            rw [← hdrop]
            exact (List.takeWhile_append_dropWhile (p := isAmtChar) (l := s)).symm
          conv_lhs => rw [h2]
          simp
        · simp
      · cases h
    · cases h

theorem mem_findAmtsF (fuel : Nat) (s m : List Char) (h : m ∈ findAmtsF fuel s) :
    m ≠ [] ∧ ∃ pre post, s = pre ++ m ++ post := by
  induction fuel generalizing s with
  | zero => cases h
  | succ fuel ih =>
    unfold findAmtsF at h
    cases s with
    | nil => cases h
    | cons c t =>
      dsimp only at h
      cases hm : matchAmtAt (c :: t) with
      | none =>
        rw [hm] at h
        obtain ⟨hne, pre, post, hp⟩ := ih t h
        exact ⟨hne, c :: pre, post, by simp [hp]⟩
      | some pr =>
        obtain ⟨m0, rest⟩ := pr
        rw [hm] at h
        obtain ⟨he, hne0⟩ := matchAmtAt_eq _ _ _ hm
        rcases List.mem_cons.mp h with rfl | h2
        · exact ⟨hne0, [], rest, by simpa using he⟩
        · obtain ⟨hne, pre, post, hp⟩ := ih rest h2
          refine ⟨hne, m0 ++ pre, post, ?_⟩
          rw [he, hp]
          simp

theorem occIndices_mem_iff (text sep : List Char) (i : Nat) :
    i ∈ occIndices text sep ↔
      i ≤ text.length ∧ isPrefixB sep (text.drop i) = true := by
  unfold occIndices
  rw [List.mem_filter, List.mem_range, Nat.lt_succ_iff]

theorem occIndices_pairwise (text sep : List Char) :
    (occIndices text sep).Pairwise (· < ·) :=
  (List.pairwise_lt_range _).filter _

theorem le_getLast_of_pairwise (l : List Nat) (hp : l.Pairwise (· < ·)) (x : Nat)
    (hx : x ∈ l) (m : Nat) (hm : l.getLast? = some m) : x ≤ m := by
  induction l with
  | nil => cases hx
  | cons a t ih =>
    cases t with
    | nil =>
      simp only [List.getLast?_singleton, Option.some.injEq] at hm
      subst hm
      rcases List.mem_singleton.mp hx with rfl
      exact le_refl _
    | cons b s =>
      rw [List.getLast?_cons_cons] at hm
      have hp1 := (List.pairwise_cons.mp hp).1
      have hp2 := (List.pairwise_cons.mp hp).2
      rcases List.mem_cons.mp hx with rfl | hx2
      · have hmm : m ∈ b :: s := by
          obtain ⟨ys, hys⟩ := List.getLast?_eq_some_iff.mp hm
          rw [hys]
          simp
        exact le_of_lt (hp1 m hmm)
      · exact ih hp2 hx2 hm

theorem rsplit1_spec (text sep : List Char)
    (pre0 post0 : List Char) (hocc : text = pre0 ++ sep ++ post0) :
    ∃ pre post, text = pre ++ sep ++ post ∧ rsplit1 text sep = pre ∧
      ∀ pre2 post2, text = pre2 ++ sep ++ post2 → pre2.length ≤ pre.length := by
  have occ_of_decomp : ∀ pre2 post2 : List Char, text = pre2 ++ sep ++ post2 →
      pre2.length ∈ occIndices text sep := by
    intro pre2 post2 h2
    rw [occIndices_mem_iff]
    constructor
    · rw [h2]
      simp only [List.length_append]
      omega
    · rw [h2, List.append_assoc, List.drop_left]
      exact isPrefixB_append _ _
  have hmem0 : pre0.length ∈ occIndices text sep := occ_of_decomp pre0 post0 hocc
  obtain ⟨i, hi⟩ : ∃ i, (occIndices text sep).getLast? = some i := by
    cases hl : (occIndices text sep).getLast? with
    | none =>
      rw [List.getLast?_eq_none_iff] at hl
      rw [hl] at hmem0
      cases hmem0
    | some j => exact ⟨j, rfl⟩
  have himem : i ∈ occIndices text sep := by
    obtain ⟨ys, hys⟩ := List.getLast?_eq_some_iff.mp hi
    rw [hys]
    simp
  rw [occIndices_mem_iff] at himem
  obtain ⟨hile, hpre⟩ := himem
  obtain ⟨post, hpost⟩ := (isPrefixB_iff _ _).mp hpre
  refine ⟨text.take i, post, ?_, ?_, ?_⟩
  · conv_lhs => rw [← List.take_append_drop i text]
    rw [hpost, List.append_assoc]
  · unfold rsplit1
    rw [hi]
  · intro pre2 post2 h2
    have hmem2 := occ_of_decomp pre2 post2 h2
    have hle := le_getLast_of_pairwise _ (occIndices_pairwise text sep) _ hmem2 i hi
    rw [List.length_take]
    omega

/-! ### Claim theorems -/

/-- C1: the spec requires a zero or negative quantity to be rejected with an
explicit error; the code has no such guard.  At quantity 0 with a known
service code, `validate_rate` returns a normal `ValidationResult` computed
from the quantity — `expected_total = rate × 0 = 0` and, with billed amount
0, even a RATE_COMPLIANT verdict — instead of failing. -/
theorem validate_rate_zero_quantity_returns_result :
    (validate_rate [("STANDARD", [("SVC1", ⟨"X-Ray", 100⟩)]), ("CGHS", [])]
        "SVC1" 100 0 0 "STANDARD").validation_status = "RATE_COMPLIANT" ∧
    (validate_rate [("STANDARD", [("SVC1", ⟨"X-Ray", 100⟩)]), ("CGHS", [])]
        "SVC1" 100 0 0 "STANDARD").expected_total = some 0 ∧
    (validate_rate [("STANDARD", [("SVC1", ⟨"X-Ray", 100⟩)]), ("CGHS", [])]
        "SVC1" 100 0 0 "STANDARD").matched_status = "MATCHED" := by
  with_unfolding_all decide

/-- C2 counterexample: two pages match the total-bill-amount pattern with
values 100 then 200; the extractor records 200, so a match on a later page
does overwrite an already-found value, contradicting first-match-wins. -/
theorem extract_concession_overwrite_counterexample :
    (extract_concession_details
      [⟨fun k => if k = "total_bill_amount" then some 100 else none, []⟩,
       ⟨fun k => if k = "total_bill_amount" then some 200 else none, []⟩]).1
      "total_bill_amount" = some 200 ∧ (200 : ℚ) ≠ 100 := by
  with_unfolding_all decide

/-- C2 amended: for every concession field key, the recorded value is the
page-wise LAST match in page-scan order (each page's first in-page match
overwrites the value recorded from earlier pages). -/
theorem extract_concession_last_page_wins (pages : List BillPage) (k : String)
    (h : k ∈ concession_keys) :
    (extract_concession_details pages).1 k = lastPageMatch pages k := by
  unfold extract_concession_details lastPageMatch
  rw [foldPages_eval pages _ _ k h]
  cases hl : (pages.filterMap (fun p => p.search k)).getLast? <;> rfl

/-- C2 witness: the amended claim holds at a concrete one-page document. -/
theorem extract_concession_last_page_wins_witness :
    "net_amount" ∈ concession_keys ∧
    (extract_concession_details
        [⟨fun k => if k = "net_amount" then some 777 else none, []⟩]).1 "net_amount" =
      lastPageMatch [⟨fun k => if k = "net_amount" then some 777 else none, []⟩] "net_amount" :=
  ⟨by decide, extract_concession_last_page_wins _ _ (by decide)⟩

/-- C3 counterexample: joined text with two currency matches "500.00" and
"500.00".  The code truncates by `rsplit` at the LAST occurrence of the
second match's substring, keeping the first "500.00" in `billed_text`;
truncation at the FIRST occurrence, as the claim states, would also strip
the first "500.00". -/
theorem emitFromText_first_occurrence_counterexample :
    findAmts "01-01-2024 XRAY 500.00 500.00".toList
      = ["500.00".toList, "500.00".toList] ∧
    emitFromText "01-01-2024 XRAY 500.00 500.00".toList
      = some (500, "01-01-2024 XRAY 500.00".toList) ∧
    stripChars (truncAtFirstOcc "01-01-2024 XRAY 500.00 500.00".toList "500.00".toList)
      = "01-01-2024 XRAY".toList ∧
    ("01-01-2024 XRAY 500.00".toList : List Char) ≠ "01-01-2024 XRAY".toList := by
  with_unfolding_all decide

/-- C3 amended: with two or more currency-pattern matches, `billed_amount`
is the numeric value of the first match and `billed_text` is the joined text
truncated at the LAST occurrence of the second match's literal substring,
then trimmed (matches beyond the second are still ignored). -/
theorem emitFromText_two_matches_truncates_last (text a b : List Char)
    (rest : List (List Char)) (h : findAmts text = a :: b :: rest) :
    ∃ bt, emitFromText text = some (parseAmt a, bt) ∧
      ∃ pre post, text = pre ++ b ++ post ∧ bt = stripChars pre ∧
        ∀ pre2 post2, text = pre2 ++ b ++ post2 → pre2.length ≤ pre.length := by
  have hb : b ∈ findAmts text := by
    rw [h]
    simp
  obtain ⟨hbne, pre0, post0, hdec⟩ := mem_findAmtsF _ _ _ hb
  obtain ⟨pre, post, hdecomp, hrs, hmax⟩ := rsplit1_spec text b pre0 post0 hdec
  refine ⟨stripChars (rsplit1 text b), ?_, pre, post, hdecomp, by rw [hrs], hmax⟩
  unfold emitFromText
  rw [h]

/-- C3 witness: the amended claim at the spec's own two-amount example. -/
theorem emitFromText_two_matches_truncates_last_witness :
    ∃ bt, emitFromText "02-01-2024 500.00 550.00".toList
        = some (parseAmt "500.00".toList, bt) ∧
      ∃ pre post, "02-01-2024 500.00 550.00".toList = pre ++ "550.00".toList ++ post ∧
        bt = stripChars pre ∧
        ∀ pre2 post2,
          "02-01-2024 500.00 550.00".toList = pre2 ++ "550.00".toList ++ post2 →
          pre2.length ≤ pre.length :=
  emitFromText_two_matches_truncates_last ("02-01-2024 500.00 550.00".toList)
    ("500.00".toList) ("550.00".toList) [] (by decide)

/-- C4: the billed-amount inconsistency note (written when
`|base × quantity − billed| > 0.01`) is assigned to `remarks` before the
lookup and every later path assigns `remarks` again, so the note never
survives to the returned result — here the returned remarks is only the
undercharge message and does not contain the note, while
`validation_status` is indeed still governed by the rate-table comparison. -/
theorem validate_rate_mismatch_remark_overwritten :
    |(100 : ℚ) * ((2 : ℤ) : ℚ) - 150| > 0.01 ∧
    (validate_rate [("STANDARD", [("SVC1", ⟨"X-Ray", 100⟩)]), ("CGHS", [])]
        "SVC1" 100 2 150 "STANDARD").remarks = "Undercharge: ₹50 for 2 units" ∧
    strContains (validate_rate [("STANDARD", [("SVC1", ⟨"X-Ray", 100⟩)]), ("CGHS", [])]
        "SVC1" 100 2 150 "STANDARD").remarks "Billed amount mismatch" = false ∧
    (validate_rate [("STANDARD", [("SVC1", ⟨"X-Ray", 100⟩)]), ("CGHS", [])]
        "SVC1" 100 2 150 "STANDARD").validation_status = "RATE_NON_COMPLIANT" := by
  with_unfolding_all decide

/-- C5: when the service code resolves to a rate-sheet entry with rate `r`,
the result has `expected_total = r × quantity`; it is RATE_COMPLIANT with
MATCHED exactly when `|billed − expected| < 0.01`, and otherwise it is
RATE_NON_COMPLIANT with NOT_MATCHED and
`rate_difference = billed − expected`. -/
theorem validate_rate_resolved_tolerance (sheet : RateSheet) (code : String)
    (base : ℚ) (qty : ℤ) (billed : ℚ) (scheme : String) (k : String) (e : RateEntry)
    (h1 : code ≠ "") (h2 : code ≠ "NOT_FOUND")
    (h3 : resolveService (getTable sheet scheme) code = some (k, e)) :
    (validate_rate sheet code base qty billed scheme).expected_total
        = some (e.rate * (qty : ℚ)) ∧
    ((validate_rate sheet code base qty billed scheme).validation_status = "RATE_COMPLIANT" ∧
        (validate_rate sheet code base qty billed scheme).matched_status = "MATCHED" ↔
      |billed - e.rate * (qty : ℚ)| < 0.01) ∧
    (¬ |billed - e.rate * (qty : ℚ)| < 0.01 →
      (validate_rate sheet code base qty billed scheme).validation_status = "RATE_NON_COMPLIANT" ∧
      (validate_rate sheet code base qty billed scheme).matched_status = "NOT_MATCHED" ∧
      (validate_rate sheet code base qty billed scheme).rate_difference
        = billed - e.rate * (qty : ℚ)) := by
  unfold validate_rate
  rw [if_neg (by simp [h1, h2])]
  dsimp only
  unfold resolveService at h3
  have key : ∀ r : ValidationResult, r.quantity = qty → r.billed_amount = billed →
      (finishValidation r e).expected_total = some (e.rate * (qty : ℚ)) ∧
      ((finishValidation r e).validation_status = "RATE_COMPLIANT" ∧
          (finishValidation r e).matched_status = "MATCHED" ↔
        |billed - e.rate * (qty : ℚ)| < 0.01) ∧
      (¬ |billed - e.rate * (qty : ℚ)| < 0.01 →
        (finishValidation r e).validation_status = "RATE_NON_COMPLIANT" ∧
        (finishValidation r e).matched_status = "NOT_MATCHED" ∧
        (finishValidation r e).rate_difference = billed - e.rate * (qty : ℚ)) := by
    intro r hq hb
    refine ⟨?_, ?_, ?_⟩
    · rw [finishValidation_expected_total, hq]
    · rw [finishValidation_compliant_iff, hq, hb]
      constructor
      · rintro ⟨hc, -⟩
        exact hc
      · intro hlt
        refine ⟨hlt, ?_⟩
        rw [finishValidation_matched_iff, finishValidation_compliant_iff, hq, hb]
        exact hlt
    · intro hge
      have hnc := finishValidation_noncompliant r e (by rw [hq, hb]; exact hge)
      refine ⟨hnc, ?_, ?_⟩
      · exact finishValidation_matched_noncompliant r e (by rw [hq, hb]; exact hge)
      · rw [finishValidation_rate_difference, hq, hb]
  cases hE : exactFind (getTable sheet scheme) code with
  | some p =>
    rw [hE] at h3
    dsimp only at h3
    obtain rfl : p = (k, e) := Option.some.inj h3
    exact key _ (by simp) (by simp)
  | none =>
    rw [hE] at h3
    dsimp only at h3
    rw [h3]
    dsimp only
    exact key _ (by simp) (by simp)

/-- C5 witness: at rate 100 and quantity 1, billed 100.009 is compliant and
billed 100.011 is non-compliant, exercising both tolerance boundaries. -/
theorem validate_rate_resolved_tolerance_witness :
    ("SVC1" : String) ≠ "" ∧ ("SVC1" : String) ≠ "NOT_FOUND" ∧
    resolveService
        (getTable [("STANDARD", [("SVC1", ⟨"X-Ray", 100⟩)]), ("CGHS", [])] "STANDARD")
        "SVC1" = some ("SVC1", ⟨"X-Ray", 100⟩) ∧
    (validate_rate [("STANDARD", [("SVC1", ⟨"X-Ray", 100⟩)]), ("CGHS", [])]
        "SVC1" 100 1 100.009 "STANDARD").validation_status = "RATE_COMPLIANT" ∧
    (validate_rate [("STANDARD", [("SVC1", ⟨"X-Ray", 100⟩)]), ("CGHS", [])]
        "SVC1" 100 1 100.011 "STANDARD").validation_status = "RATE_NON_COMPLIANT" := by
  refine ⟨by decide, by decide, by with_unfolding_all decide, ?_, ?_⟩
  · exact ((validate_rate_resolved_tolerance
        [("STANDARD", [("SVC1", ⟨"X-Ray", 100⟩)]), ("CGHS", [])]
        "SVC1" 100 1 100.009 "STANDARD" "SVC1" ⟨"X-Ray", 100⟩
        (by decide) (by decide) (by with_unfolding_all decide)).2.1.mpr
      (by rw [abs_of_nonneg (by norm_num)]; norm_num)).1
  · exact ((validate_rate_resolved_tolerance
        [("STANDARD", [("SVC1", ⟨"X-Ray", 100⟩)]), ("CGHS", [])]
        "SVC1" 100 1 100.011 "STANDARD" "SVC1" ⟨"X-Ray", 100⟩
        (by decide) (by decide) (by with_unfolding_all decide)).2.2
      (by rw [abs_of_nonneg (by norm_num)]; norm_num)).1

/-- C6: a non-empty, non-sentinel service code with neither an exact nor a
case-insensitive match in the selected scheme's table (including the empty
table that a missing or unreadable rate source degrades to) yields
SERVICE_NOT_IN_RATE_SHEET, NOT_MATCHED and no approved rate, with the
validator returning normally. -/
theorem validate_rate_unknown_code_not_in_sheet (sheet : RateSheet) (code : String)
    (base : ℚ) (qty : ℤ) (billed : ℚ) (scheme : String)
    (h1 : code ≠ "") (h2 : code ≠ "NOT_FOUND")
    (h3 : ∀ p ∈ getTable sheet scheme, p.1 ≠ code ∧ upperStr p.1 ≠ upperStr code) :
    (validate_rate sheet code base qty billed scheme).validation_status
        = "SERVICE_NOT_IN_RATE_SHEET" ∧
    (validate_rate sheet code base qty billed scheme).matched_status = "NOT_MATCHED" ∧
    (validate_rate sheet code base qty billed scheme).approved_rate = none := by
  have hE : exactFind (getTable sheet scheme) code = none := by
    unfold exactFind
    rw [List.find?_eq_none]
    intro p hp
    simpa using (h3 p hp).1
  have hC : ciFind (getTable sheet scheme) code = none := by
    unfold ciFind
    rw [List.find?_eq_none]
    intro p hp
    simpa using (h3 p hp).2
  unfold validate_rate
  rw [if_neg (by simp [h1, h2])]
  dsimp only
  rw [hE]
  dsimp only
  rw [hC]
  dsimp only
  exact ⟨rfl, rfl, preResult_approved_rate _ _ _ _ _⟩

/-- C6 witness: the spec's own unknown-code example against an empty table. -/
theorem validate_rate_unknown_code_not_in_sheet_witness :
    ("ZZZZZZ" : String) ≠ "" ∧ ("ZZZZZZ" : String) ≠ "NOT_FOUND" ∧
    (∀ p ∈ getTable [("STANDARD", ([] : RateTable)), ("CGHS", [])] "STANDARD",
      p.1 ≠ "ZZZZZZ" ∧ upperStr p.1 ≠ upperStr "ZZZZZZ") ∧
    (validate_rate [("STANDARD", []), ("CGHS", [])]
        "ZZZZZZ" 100 1 100 "STANDARD").validation_status = "SERVICE_NOT_IN_RATE_SHEET" ∧
    (validate_rate [("STANDARD", []), ("CGHS", [])]
        "ZZZZZZ" 100 1 100 "STANDARD").matched_status = "NOT_MATCHED" ∧
    (validate_rate [("STANDARD", []), ("CGHS", [])]
        "ZZZZZZ" 100 1 100 "STANDARD").approved_rate = none := by
  refine ⟨by decide, by decide, by decide, ?_⟩
  have h := validate_rate_unknown_code_not_in_sheet
    [("STANDARD", []), ("CGHS", [])] "ZZZZZZ" 100 1 100 "STANDARD"
    (by decide) (by decide) (by decide)
  exact ⟨h.1, h.2.1, h.2.2⟩

/-- C7: the leakage total sums billed amounts of exactly the rows whose
outcome is UNSUPPORTED_BILLING or AMOUNT_MISMATCH, excluding
POTENTIAL_MISSING_CHARGE; in particular rows of 500, 300 and 200 under the
three outcomes total 800. -/
theorem calculate_money_leakage_total_spec :
    (∀ rows : List AuditRow,
      (calculate_money_leakage rows).total_leakage_amount =
        ((rows.filter (fun r => r.audit_outcome == "UNSUPPORTED_BILLING" ||
            r.audit_outcome == "AMOUNT_MISMATCH")).map (fun r => r.billed_amount)).sum) ∧
    (calculate_money_leakage
        [⟨500, "UNSUPPORTED_BILLING", "CONSULTATION"⟩,
         ⟨300, "AMOUNT_MISMATCH", "LAB"⟩,
         ⟨200, "POTENTIAL_MISSING_CHARGE", "PHARMACY"⟩]).total_leakage_amount = 800 := by
  have main : ∀ rows : List AuditRow,
      (calculate_money_leakage rows).total_leakage_amount =
        ((rows.filter (fun r => r.audit_outcome == "UNSUPPORTED_BILLING" ||
            r.audit_outcome == "AMOUNT_MISMATCH")).map (fun r => r.billed_amount)).sum := by
    intro rows
    unfold calculate_money_leakage
    dsimp only [List.foldl]
    rw [if_neg (by simp), if_pos (by decide), if_pos (by decide)]
    rw [zero_add]
    exact outcomeSum_pair rows
  refine ⟨main, ?_⟩
  rw [main]
  simp [List.filter]
  norm_num

/-- C8: the selected scheme is CGHS exactly when the uppercased company name
contains one of the spec's keywords as a substring, and STANDARD otherwise;
the source's extra keyword SOUTHERN RAILWAY changes nothing because it
contains RAILWAY.  The spec's two concrete examples are also checked. -/
theorem determine_rate_scheme_keyword_spec (company : String) :
    (determine_rate_scheme company = "CGHS" ↔
      claim_scheme_keywords.any (fun k => strContains (upperStr company) k) = true) ∧
    (determine_rate_scheme company = "STANDARD" ↔
      ¬ claim_scheme_keywords.any (fun k => strContains (upperStr company) k) = true) ∧
    determine_rate_scheme "Southern Railway Employees" = "CGHS" ∧
    determine_rate_scheme "ABC Corp" = "STANDARD" := by
  have main : determine_rate_scheme company = "CGHS" ↔
      claim_scheme_keywords.any (fun k => strContains (upperStr company) k) = true := by
    unfold determine_rate_scheme
    by_cases hemp : company = ""
    · subst hemp
      rw [if_pos rfl]
      constructor
      · intro h
        exact absurd h (by decide)
      · intro h
        exact absurd h (by decide)
    · rw [if_neg hemp]
      rw [schemeLoop_eq_cghs_iff]
      simp only [List.any_eq_true]
      constructor
      · rintro ⟨k, hk, hc⟩
        unfold cghs_keywords at hk
        rcases List.mem_cons.mp hk with rfl | hk
        · refine ⟨"RAILWAY", by simp [claim_scheme_keywords], ?_⟩
          exact containsSub_trans _ _ _ hc (by decide)
        · exact ⟨k, by simpa [claim_scheme_keywords] using hk, hc⟩
      · rintro ⟨k, hk, hc⟩
        refine ⟨k, ?_, hc⟩
        simp only [claim_scheme_keywords, List.mem_cons] at hk
        unfold cghs_keywords
        rcases hk with rfl | rfl | rfl | rfl | rfl | rfl | rfl | rfl | rfl | h
        all_goals simp_all
  refine ⟨main, ?_, by decide, by decide⟩
  constructor
  · intro h hany
    rw [← main] at hany
    rw [h] at hany
    exact absurd hany (by decide)
  · intro h
    have hd := schemeLoop_dichotomy cghs_keywords (upperStr company)
    unfold determine_rate_scheme
    by_cases hemp : company = ""
    · rw [if_pos hemp]
    · rw [if_neg hemp]
      rcases hd with hc | hst
      · exfalso
        apply h
        rw [← main]
        unfold determine_rate_scheme
        rw [if_neg hemp]
        exact hc
      · exact hst

/-- C9: on every input and every rate sheet, the returned result has
`matched_status = MATCHED` exactly when
`validation_status = RATE_COMPLIANT`. -/
theorem validate_rate_matched_iff_compliant (sheet : RateSheet) (code : String)
    (base : ℚ) (qty : ℤ) (billed : ℚ) (scheme : String) :
    ((validate_rate sheet code base qty billed scheme).matched_status = "MATCHED" ↔
      (validate_rate sheet code base qty billed scheme).validation_status
        = "RATE_COMPLIANT") := by
  unfold validate_rate
  dsimp only
  split
  · simp
  · split
    · exact finishValidation_matched_iff _ _
    · split
      · exact finishValidation_matched_iff _ _
      · simp

/-- C10 counterexample: the table key "abc" is found for the supplied code
"ABC" only via the case-insensitive fallback, and the result's
`service_code` is the table key "abc", not the caller's "ABC". -/
theorem validate_rate_service_code_echo_counterexample :
    (validate_rate [("STANDARD", [("abc", ⟨"Consult", 50⟩)]), ("CGHS", [])]
        "ABC" 50 1 50 "STANDARD").service_code = "abc" ∧ ("abc" : String) ≠ "ABC" := by
  with_unfolding_all decide

/-- C10 amended: the result echoes `base_amount`, `quantity`,
`billed_amount` and `rate_scheme` unchanged, and echoes the caller's
`service_code` except when only the case-insensitive fallback matches, in
which case the result carries the matched table key. -/
theorem validate_rate_echo_fields (sheet : RateSheet) (code : String) (base : ℚ)
    (qty : ℤ) (billed : ℚ) (scheme : String) :
    (validate_rate sheet code base qty billed scheme).base_amount = base ∧
    (validate_rate sheet code base qty billed scheme).quantity = qty ∧
    (validate_rate sheet code base qty billed scheme).billed_amount = billed ∧
    (validate_rate sheet code base qty billed scheme).rate_scheme = scheme ∧
    (validate_rate sheet code base qty billed scheme).service_code
      = echoedCode sheet code scheme := by
  by_cases hs : code = "" ∨ code = "NOT_FOUND"
  · unfold validate_rate echoedCode
    rw [if_pos hs, if_pos hs]
    simp
  · unfold validate_rate echoedCode
    rw [if_neg hs, if_neg hs]
    dsimp only
    cases hE : exactFind (getTable sheet scheme) code with
    | some p =>
      dsimp only
      obtain ⟨f1, f2, f3, f4, f5⟩ :=
        finishValidation_frame (preResult code base qty billed scheme) p.2
      exact ⟨f2.trans (by simp), f3.trans (by simp), f4.trans (by simp),
             f5.trans (by simp), f1.trans (by simp)⟩
    | none =>
      dsimp only
      cases hC : ciFind (getTable sheet scheme) code with
      | some p =>
        dsimp only
        have f := finishValidation_frame
          ({ preResult code base qty billed scheme with service_code := p.1 }) p.2
        dsimp only at f
        obtain ⟨f1, f2, f3, f4, f5⟩ := f
        exact ⟨f2.trans (by simp), f3.trans (by simp), f4.trans (by simp),
               f5.trans (by simp), f1.trans (by simp)⟩
      | none =>
        dsimp only
        simp

end Hospital
